import Mathlib

/-!
Verification of the `td` task tracker (src/td/cli.py) against its
natural-language specification.

The CLI layer (`add`, `ls`, `focus`/`active`/`later`/`done`, `tree`, `rm`,
…) is embedded from `src/td/cli.py`.  The helper modules `td.models`
(`Task`, `slugify`, `VALID_STATES`) and `td.store` (`load_task`,
`save_task`, `delete_task`, `load_all_tasks`, `resolve_unique_id`) are not
part of the provided sources; their definitions below are modelled from the
specification, as indicated in their doc comments.

The on-disk record set (one file per task id) is modelled as a list of
tasks; timestamps are modelled as natural numbers supplied by the caller
(the spec requires the current-time source to be injected).
-/

namespace Td

/-- Modelled from the spec: the Task entity of `td.models` — `id`, `title`,
`state` (one of the fixed enumeration), optional `parent` and `notes`, and
`created` / `updated` timestamps. -/
structure Task where
  id : String
  title : String
  state : String
  parent : Option String := none
  notes : Option String := none
  created : Nat
  updated : Nat
deriving DecidableEq, Repr

/-- The on-disk record set of one project: one record per task. -/
abbrev Store := List Task

/-- The error taxonomy of the spec (§7), restricted to the conditions the
embedded commands can raise. `aborted` models a declined confirmation
prompt (`click.Abort`). -/
inductive TdErr where
  | notFound (id : String)
  | alreadyExists (id : String)
  | invalidTitle
  | aborted
deriving DecidableEq, Repr

/-- Modelled from the spec: `VALID_STATES` of `td.models`, the fixed ordered
enumeration `{focus, active, later, done}` (the order is confirmed by the
sort comment in `cli.py` line 130). -/
def VALID_STATES : List String := ["focus", "active", "later", "done"]

/-- Modelled from the spec: `load_task` of `td.store` — reads exactly one
record by id, failing with "not found" if absent.  In the list model this
is lookup of the record whose `id` equals the requested id. -/
def loadTask (store : Store) (tid : String) : Except TdErr Task :=
  match store.find? (fun t => t.id == tid) with
  | some t => Except.ok t
  | none => Except.error (TdErr.notFound tid)

/-- Modelled from the spec: `save_task` of `td.store` — writes the full
record keyed by `id`, overwriting any prior content, creating the record
if absent. -/
def saveTask (store : Store) (task : Task) : Store :=
  if store.any (fun t => t.id == task.id) then
    store.map (fun t => if t.id == task.id then task else t)
  else store ++ [task]

/-- Modelled from the spec: `delete_task` of `td.store` — removes the
record for `id`, failing with "not found" if absent. -/
def deleteTask (store : Store) (tid : String) : Except TdErr Store :=
  if store.any (fun t => t.id == tid) then
    Except.ok (store.filter (fun t => !(t.id == tid)))
  else Except.error (TdErr.notFound tid)

/-- Modelled from the spec: `load_all_tasks` of `td.store` — returns every
record as an unordered collection (the identity in the list model). -/
def loadAllTasks (store : Store) : List Task := store

/-- `state_order` of `ls_cmd` (cli.py lines 130-132): the dict built from
`enumerate(VALID_STATES)`, looked up with default `99`. -/
def stateOrder (s : String) : Nat :=
  if s = "focus" then 0
  else if s = "active" then 1
  else if s = "later" then 2
  else if s = "done" then 3
  else 99

/-- The sort key relation used by `ls_cmd`: compare tasks by
`state_order` of their state. -/
def taskLE (a b : Task) : Prop := stateOrder a.state ≤ stateOrder b.state

instance : DecidableRel taskLE := fun a b =>
  inferInstanceAs (Decidable (stateOrder a.state ≤ stateOrder b.state))

instance : IsTotal Task taskLE := ⟨fun a b => Nat.le_total _ _⟩

instance : IsTrans Task taskLE := ⟨fun _ _ _ => Nat.le_trans⟩

/-- `ls_cmd` (cli.py lines 120-132): load all tasks, filter by the
requested state (or drop `done` tasks unless `--all` is set), then perform
a stable sort on the `state_order` key (Python's `list.sort` is stable;
`List.insertionSort` with `taskLE` inserts an element before the
equal-key elements that followed it, which is the same stable order). -/
def lsTasks (store : Store) (filterState : Option String) (showAll : Bool) :
    List Task :=
  let tasks := loadAllTasks store
  let tasks :=
    match filterState with
    | some fs => tasks.filter (fun t => t.state == fs)
    | none => if showAll then tasks else tasks.filter (fun t => !(t.state == "done"))
  List.insertionSort taskLE tasks

/-- `_set_state` (cli.py lines 73-79): load the task, set its state,
refresh `updated`, save.  On a load failure the store is untouched. -/
def setState (store : Store) (tid newState : String) (now : Nat) :
    Except TdErr Unit × Store :=
  match loadTask store tid with
  | Except.error e => (Except.error e, store)
  | Except.ok task =>
    (Except.ok (), saveTask store { task with state := newState, updated := now })

/-- The `focus` command (cli.py lines 82-86). -/
def focusCmd (store : Store) (tid : String) (now : Nat) :
    Except TdErr Unit × Store := setState store tid "focus" now

/-- The `active` command (cli.py lines 89-93). -/
def activeCmd (store : Store) (tid : String) (now : Nat) :
    Except TdErr Unit × Store := setState store tid "active" now

/-- The `later` command (cli.py lines 96-100). -/
def laterCmd (store : Store) (tid : String) (now : Nat) :
    Except TdErr Unit × Store := setState store tid "later" now

/-- The `done` command (cli.py lines 103-107). -/
def doneCmd (store : Store) (tid : String) (now : Nat) :
    Except TdErr Unit × Store := setState store tid "done" now

/-- `rm` (cli.py lines 249-259): verify existence first by loading the
task, then (unless `--force`) ask for confirmation, then delete.
`confirmed` is the user's answer to the prompt. -/
def rmCmd (store : Store) (tid : String) (force confirmed : Bool) :
    Except TdErr Unit × Store :=
  match loadTask store tid with
  | Except.error e => (Except.error e, store)
  | Except.ok _ =>
    if !force && !confirmed then (Except.error TdErr.aborted, store)
    else
      match deleteTask store tid with
      | Except.ok s2 => (Except.ok (), s2)
      | Except.error e => (Except.error e, store)

/-- The task set the `tree` command works on (cli.py line 164): done tasks
are dropped before anything else. -/
def treeVisible (store : Store) : List Task :=
  (loadAllTasks store).filter (fun t => !(t.state == "done"))

/-- The id lookup of `tree` (cli.py lines 177-179): `task_map` is built
from the visible (non-done) tasks only, and an id absent from it raises
"Task '<id>' not found." -/
def treeLookup (store : Store) (tid : String) : Except TdErr Task :=
  match (treeVisible store).find? (fun t => t.id == tid) with
  | some t => Except.ok t
  | none => Except.error (TdErr.notFound tid)

/-! ### Identifier utilities (`td.models.slugify`), modelled from the spec -/

/-- An ASCII lowercase letter or digit: the characters `slugify` keeps. -/
def isSlugChar (c : Char) : Bool :=
  (97 ≤ c.toNat && c.toNat ≤ 122) || (48 ≤ c.toNat && c.toNat ≤ 57)

/-- An ASCII uppercase letter. -/
def isAsciiUpper (c : Char) : Bool := 65 ≤ c.toNat && c.toNat ≤ 90

/-- An ASCII alphanumeric character (letter of either case, or digit). -/
def isAsciiAlnum (c : Char) : Bool := isAsciiUpper c || isSlugChar c

/-- ASCII lowercasing of one character, as done by `str.lower`. -/
def lowerChar (c : Char) : Char :=
  if isAsciiUpper c then Char.ofNat (c.toNat + 32) else c

/-- Replace a character that is not a lowercase alphanumeric by a hyphen. -/
def hyphenate (c : Char) : Char := if isSlugChar c then c else '-'

/-- Collapse each run of consecutive hyphens to a single hyphen. -/
def squeezeHyphens : List Char → List Char
  | [] => []
  | [c] => [c]
  | c :: d :: rest =>
    if c = '-' ∧ d = '-' then squeezeHyphens (d :: rest)
    else c :: squeezeHyphens (d :: rest)

/-- Remove leading and trailing hyphens. -/
def stripHyphens (l : List Char) : List Char :=
  (((l.dropWhile (fun c => c == '-')).reverse.dropWhile (fun c => c == '-'))).reverse

/-- Modelled from the spec: `slugify` of `td.models` — lowercases, replaces
runs of non-alphanumeric characters with a single hyphen, strips
leading/trailing hyphens, and yields `""` for titles with no alphanumeric
content. -/
def slugify (s : String) : String :=
  String.mk (stripHyphens (squeezeHyphens ((s.data.map lowerChar).map hyphenate)))

/-! ### Unique id allocation (`td.store.resolve_unique_id`), modelled from
the spec -/

/-- Decimal digit characters of `n`, most significant first.  `fuel`
bounds the recursion; any `fuel > n` is enough. -/
def natDigitChars : Nat → Nat → List Char
  | 0, _ => []
  | fuel + 1, n =>
    if n < 10 then [Char.ofNat (n + 48)]
    else natDigitChars fuel (n / 10) ++ [Char.ofNat (n % 10 + 48)]

/-- Decimal rendering of a natural number. -/
def natRepr (n : Nat) : String := String.mk (natDigitChars (n + 1) n)

/-- The candidate id `f"{base}-{k}"` tried by `resolve_unique_id`. -/
def candId (base : String) (k : Nat) : String := base ++ "-" ++ natRepr k

/-- The suffix-search loop of `resolve_unique_id`: try `base-k`,
`base-(k+1)`, … until an id is unused.  `fuel` bounds the loop; the
caller passes enough fuel for an unused candidate to exist in range. -/
def resolveAux (ids : List String) (base : String) : Nat → Nat → String
  | 0, k => candId base k
  | fuel + 1, k =>
    if candId base k ∈ ids then resolveAux ids base fuel (k + 1)
    else candId base k

/-- Modelled from the spec: `resolve_unique_id` of `td.store` — returns
`base` if no record with that id exists; otherwise appends a numeric
suffix (`base-2`, `base-3`, …) incrementing until an unused id is found.
The fuel `length + 1` always suffices because among `length + 1` distinct
candidates at least one is unused. -/
def resolveUniqueId (store : Store) (base : String) : String :=
  if base ∈ store.map Task.id then
    resolveAux (store.map Task.id) base ((store.map Task.id).length + 1) 2
  else base

/-- The "no two consecutive hyphens" relation on characters. -/
def noHH (a b : Char) : Prop := ¬(a = '-' ∧ b = '-')

/-! ### The `add` command (cli.py lines 43-70) -/

/-- The slug path of `add` (cli.py lines 52-55 and 57-70): derive the base
slug from the title, fail if it is empty, otherwise allocate a unique id
and persist the new task. -/
def addSlug (store : Store) (title : String) (parent : Option String)
    (st : String) (now : Nat) : Except TdErr String × Store :=
  let base := slugify title
  if base = "" then (Except.error TdErr.invalidTitle, store)
  else
    let tid := resolveUniqueId store base
    (Except.ok tid,
      saveTask store
        { id := tid, title := title, state := st, parent := parent,
          notes := none, created := now, updated := now })

/-- `add` (cli.py lines 43-70).  `if custom_id:` is Python truthiness, so
an empty custom id falls through to the slug path.  A non-empty custom id
is checked for an existing record (`AlreadyExists`) but not for shape.
The default state is `active`. -/
def addCmd (store : Store) (title : String) (parent : Option String)
    (stateOpt : Option String) (customId : Option String) (now : Nat) :
    Except TdErr String × Store :=
  let st := stateOpt.getD "active"
  match customId with
  | some tid =>
    if tid = "" then addSlug store title parent st now
    else if store.any (fun t => t.id == tid) then
      (Except.error (TdErr.alreadyExists tid), store)
    else
      (Except.ok tid,
        saveTask store
          { id := tid, title := title, state := st, parent := parent,
            notes := none, created := now, updated := now })
  | none => addSlug store title parent st now

/-! ### Helper lemmas about the store operations -/

theorem find?_cons_true {α : Type} (p : α → Bool) (a : α) (l : List α)
    (h : p a = true) : List.find? p (a :: l) = some a := by
  simp [List.find?_cons, h]

theorem find?_cons_false {α : Type} (p : α → Bool) (a : α) (l : List α)
    (h : p a = false) : List.find? p (a :: l) = List.find? p l := by
  simp [List.find?_cons, h]

theorem find?_map_replace (u : Task) (store : Store)
    (h : store.any (fun t => t.id == u.id) = true) :
    (store.map (fun t => if t.id == u.id then u else t)).find?
      (fun t => t.id == u.id) = some u := by
  induction store with
  | nil => simp at h
  | cons t rest ih =>
    by_cases hb : (t.id == u.id) = true
    · rw [List.map_cons, if_pos hb, find?_cons_true (fun t => t.id == u.id) u _ (by simp)]
    · have hb2 : (t.id == u.id) = false := by simpa using hb
      have hrest : rest.any (fun t => t.id == u.id) = true := by
        simpa [List.any_cons, hb2] using h
      rw [List.map_cons, if_neg hb, find?_cons_false (fun t => t.id == u.id) t _ hb2]
      exact ih hrest

theorem loadTask_saveTask_self (store : Store) (u : Task) :
    loadTask (saveTask store u) u.id = Except.ok u := by
  unfold loadTask saveTask
  by_cases h : store.any (fun t => t.id == u.id) = true
  · rw [if_pos h, find?_map_replace u store h]
  · rw [if_neg h, List.find?_append]
    have hnone : store.find? (fun t => t.id == u.id) = none := by
      rw [List.find?_eq_none]
      intro x hx hpx
      exact h (List.any_eq_true.mpr ⟨x, hx, hpx⟩)
    rw [hnone]
    simp [List.find?]

theorem loadTask_ok_mem (store : Store) (tid : String) (t : Task)
    (h : loadTask store tid = Except.ok t) : t ∈ store ∧ t.id = tid := by
  unfold loadTask at h
  cases hf : store.find? (fun t => t.id == tid) with
  | none => rw [hf] at h; exact absurd h (by simp)
  | some t2 =>
    rw [hf] at h
    have ht : t2 = t := by simpa using h
    subst ht
    refine ⟨List.mem_of_find?_eq_some hf, ?_⟩
    simpa using List.find?_some hf

theorem loadTask_eq_error (store : Store) (tid : String)
    (h : ∀ t ∈ store, t.id ≠ tid) :
    loadTask store tid = Except.error (TdErr.notFound tid) := by
  unfold loadTask
  have hnone : store.find? (fun t => t.id == tid) = none := by
    rw [List.find?_eq_none]
    intro x hx hpx
    exact h x hx (by simpa using hpx)
  rw [hnone]

/-! ### Helper lemmas about characters and `slugify` -/

theorem char_toNat_ofNat {n : Nat} (h : n < 55296) : (Char.ofNat n).toNat = n := by
  have hv : n.isValidChar := Or.inl h
  unfold Char.ofNat
  rw [dif_pos hv]
  rfl

theorem lowerChar_slug {c : Char} (h : isAsciiAlnum c = true) :
    isSlugChar (lowerChar c) = true := by
  unfold isAsciiAlnum at h
  unfold lowerChar
  by_cases hu : isAsciiUpper c = true
  · rw [if_pos hu]
    unfold isAsciiUpper at hu
    simp only [Bool.and_eq_true, decide_eq_true_eq] at hu
    have ht : (Char.ofNat (c.toNat + 32)).toNat = c.toNat + 32 :=
      char_toNat_ofNat (by omega)
    unfold isSlugChar
    rw [ht]
    simp only [Bool.or_eq_true, Bool.and_eq_true, decide_eq_true_eq]
    omega
  · rw [if_neg hu]
    have h2 : isAsciiUpper c = true ∨ isSlugChar c = true := by simpa using h
    rcases h2 with h1 | h2
    · exact absurd h1 hu
    · exact h2

theorem slugChar_ne_hyphen {c : Char} (h : isSlugChar c = true) : c ≠ '-' := by
  intro hc
  subst hc
  revert h
  decide

theorem hyphenate_cases (c : Char) :
    isSlugChar (hyphenate c) = true ∨ hyphenate c = '-' := by
  unfold hyphenate
  by_cases h : isSlugChar c = true
  · rw [if_pos h]; exact Or.inl h
  · rw [if_neg h]; exact Or.inr rfl

theorem hyphenate_of_slug {c : Char} (h : isSlugChar c = true) : hyphenate c = c := by
  unfold hyphenate
  rw [if_pos h]

theorem noHH_symm (a b : Char) (h : noHH a b) : noHH b a := by
  intro hc; exact h ⟨hc.2, hc.1⟩

theorem squeeze_mem_sub (x : Char) : ∀ l : List Char, x ∈ squeezeHyphens l → x ∈ l := by
  intro l
  induction l with
  | nil => intro h; simpa [squeezeHyphens] using h
  | cons c rest ih =>
    cases rest with
    | nil => intro h; simpa [squeezeHyphens] using h
    | cons d r2 =>
      intro h
      rw [squeezeHyphens] at h
      by_cases hcd : c = '-' ∧ d = '-'
      · rw [if_pos hcd] at h
        exact List.mem_cons_of_mem _ (ih h)
      · rw [if_neg hcd] at h
        rcases List.mem_cons.mp h with h1 | h2
        · exact h1 ▸ List.mem_cons_self _ _
        · exact List.mem_cons_of_mem _ (ih h2)

theorem squeeze_mem_of_ne (x : Char) (hx : x ≠ '-') :
    ∀ l : List Char, x ∈ l → x ∈ squeezeHyphens l := by
  intro l
  induction l with
  | nil => intro h; simpa using h
  | cons c rest ih =>
    cases rest with
    | nil => intro h; simpa [squeezeHyphens] using h
    | cons d r2 =>
      intro h
      rw [squeezeHyphens]
      by_cases hcd : c = '-' ∧ d = '-'
      · rw [if_pos hcd]
        apply ih
        rcases List.mem_cons.mp h with h1 | h2
        · exact absurd (h1 ▸ hcd.1) hx
        · exact h2
      · rw [if_neg hcd]
        rcases List.mem_cons.mp h with h1 | h2
        · exact h1 ▸ List.mem_cons_self _ _
        · exact List.mem_cons_of_mem _ (ih h2)

theorem squeeze_head_ne (d : Char) (t : List Char) (hd : d ≠ '-') :
    (squeezeHyphens (d :: t)).head? = some d := by
  cases t with
  | nil => rfl
  | cons e r =>
    rw [squeezeHyphens, if_neg (fun hc => hd hc.1)]
    rfl

theorem squeeze_chain : ∀ l : List Char, List.Chain' noHH (squeezeHyphens l) := by
  intro l
  induction l with
  | nil => simp [squeezeHyphens]
  | cons c rest ih =>
    cases rest with
    | nil => simp [squeezeHyphens]
    | cons d r2 =>
      rw [squeezeHyphens]
      by_cases hcd : c = '-' ∧ d = '-'
      · rw [if_pos hcd]; exact ih
      · rw [if_neg hcd]
        rw [List.chain'_cons']
        refine ⟨?_, ih⟩
        intro y hy
        by_cases hd : d = '-'
        · intro hcy
          exact hcd ⟨hcy.1, hd⟩
        · rw [squeeze_head_ne d r2 hd] at hy
          have hyd : d = y := by simpa using hy
          subst hyd
          intro hcy
          exact hd hcy.2

theorem dropWhile_mem_of_false {α : Type} (p : α → Bool) (x : α) (hx : p x = false) :
    ∀ l : List α, x ∈ l → x ∈ l.dropWhile p := by
  intro l
  induction l with
  | nil => intro h; simpa using h
  | cons a rest ih =>
    intro h
    rw [List.dropWhile_cons]
    by_cases ha : p a = true
    · rw [if_pos ha]
      apply ih
      rcases List.mem_cons.mp h with h1 | h2
      · subst h1; rw [hx] at ha; exact absurd ha (by simp)
      · exact h2
    · rw [if_neg ha]
      exact h

theorem dropWhile_head_false {α : Type} (p : α → Bool) :
    ∀ (l : List α) (x : α), (l.dropWhile p).head? = some x → p x = false := by
  intro l
  induction l with
  | nil => intro x h; simp at h
  | cons a rest ih =>
    intro x h
    rw [List.dropWhile_cons] at h
    by_cases ha : p a = true
    · rw [if_pos ha] at h; exact ih x h
    · rw [if_neg ha] at h
      have hax : a = x := by simpa using h
      subst hax
      simpa using ha

theorem dropWhile_getLast {α : Type} (p : α → Bool) :
    ∀ l : List α, l.dropWhile p ≠ [] → (l.dropWhile p).getLast? = l.getLast? := by
  intro l
  induction l with
  | nil => intro h; simp at h
  | cons a rest ih =>
    intro h
    rw [List.dropWhile_cons] at h ⊢
    by_cases ha : p a = true
    · rw [if_pos ha] at h ⊢
      rw [ih h]
      cases rest with
      | nil => simp at h
      | cons b r2 => rw [List.getLast?_cons_cons]
    · rw [if_neg ha]

theorem chain'_dropWhile {α : Type} {R : α → α → Prop} (p : α → Bool) :
    ∀ l : List α, List.Chain' R l → List.Chain' R (l.dropWhile p) := by
  intro l
  induction l with
  | nil => intro h; simpa using h
  | cons a rest ih =>
    intro h
    rw [List.dropWhile_cons]
    by_cases ha : p a = true
    · rw [if_pos ha]; exact ih h.tail
    · rw [if_neg ha]; exact h

theorem chain'_reverse_of_symm {α : Type} {R : α → α → Prop}
    (hsymm : ∀ a b, R a b → R b a) (l : List α) (h : List.Chain' R l) :
    List.Chain' R l.reverse := by
  rw [List.chain'_reverse]
  exact h.imp hsymm

theorem strip_mem_of_ne (x : Char) (hx : x ≠ '-') (l : List Char) (h : x ∈ l) :
    x ∈ stripHyphens l := by
  unfold stripHyphens
  have hpx : (x == '-') = false := by simpa using hx
  rw [List.mem_reverse]
  apply dropWhile_mem_of_false (fun c => c == '-') x hpx
  rw [List.mem_reverse]
  exact dropWhile_mem_of_false (fun c => c == '-') x hpx _ h

theorem strip_sub (x : Char) (l : List Char) (h : x ∈ stripHyphens l) : x ∈ l := by
  unfold stripHyphens at h
  rw [List.mem_reverse] at h
  have h2 := (List.dropWhile_sublist _).subset h
  rw [List.mem_reverse] at h2
  exact (List.dropWhile_sublist _).subset h2

theorem strip_getLast_ne (l : List Char) :
    (stripHyphens l).getLast? ≠ some '-' := by
  unfold stripHyphens
  rw [List.getLast?_reverse]
  intro h
  have := dropWhile_head_false (fun c => c == '-') _ _ h
  simp at this

theorem strip_head_ne (l : List Char) : (stripHyphens l).head? ≠ some '-' := by
  unfold stripHyphens
  rw [List.head?_reverse]
  by_cases hne :
      ((l.dropWhile (fun c => c == '-')).reverse.dropWhile (fun c => c == '-')) = []
  · rw [hne]; simp
  · rw [dropWhile_getLast _ _ hne, List.getLast?_reverse]
    intro h
    have := dropWhile_head_false (fun c => c == '-') _ _ h
    simp at this

theorem strip_chain (l : List Char) (h : List.Chain' noHH l) :
    List.Chain' noHH (stripHyphens l) := by
  unfold stripHyphens
  apply chain'_reverse_of_symm noHH_symm
  apply chain'_dropWhile
  apply chain'_reverse_of_symm noHH_symm
  apply chain'_dropWhile
  exact h

/-- Every character of a slug is a lowercase alphanumeric or a hyphen. -/
theorem slugify_chars (s : String) :
    ∀ c ∈ (slugify s).data, isSlugChar c = true ∨ c = '-' := by
  intro c hc
  unfold slugify at hc
  have h1 : c ∈ squeezeHyphens ((s.data.map lowerChar).map hyphenate) :=
    strip_sub c _ hc
  have h2 : c ∈ (s.data.map lowerChar).map hyphenate := squeeze_mem_sub c _ h1
  rcases List.mem_map.mp h2 with ⟨b, _, rfl⟩
  exact hyphenate_cases b

/-- A slug of a title containing an alphanumeric character is non-empty. -/
theorem slugify_data_ne_nil (s : String)
    (hx : ∃ c ∈ s.data, isAsciiAlnum c = true) : (slugify s).data ≠ [] := by
  rcases hx with ⟨c0, hc0, halnum⟩
  have hslug : isSlugChar (lowerChar c0) = true := lowerChar_slug halnum
  have hne : lowerChar c0 ≠ '-' := slugChar_ne_hyphen hslug
  have hmem : lowerChar c0 ∈ (s.data.map lowerChar).map hyphenate := by
    rw [← hyphenate_of_slug hslug]
    exact List.mem_map_of_mem _ (List.mem_map_of_mem _ hc0)
  have hmem2 : lowerChar c0 ∈ squeezeHyphens ((s.data.map lowerChar).map hyphenate) :=
    squeeze_mem_of_ne _ hne _ hmem
  have hmem3 : lowerChar c0 ∈ (slugify s).data :=
    strip_mem_of_ne _ hne _ hmem2
  intro hnil
  rw [hnil] at hmem3
  simp at hmem3

/-- A title with no alphanumeric content slugifies to the empty string:
every character is lowered to itself, replaced by a hyphen, and the
hyphens are then stripped away completely. -/
theorem slugify_eq_empty_of_no_alnum (s : String)
    (h : ∀ c ∈ s.data, isAsciiAlnum c = false) : slugify s = "" := by
  have hmid : ∀ c ∈ (s.data.map lowerChar).map hyphenate, (c == '-') = true := by
    intro c hc
    rcases List.mem_map.mp hc with ⟨b, hb, rfl⟩
    rcases List.mem_map.mp hb with ⟨a, ha, rfl⟩
    have ha2 := h a ha
    have ha3 : isAsciiUpper a = false ∧ isSlugChar a = false := by
      simpa [isAsciiAlnum] using ha2
    have hl : lowerChar a = a := by
      unfold lowerChar
      rw [if_neg (by simp [ha3.1])]
    rw [hl]
    unfold hyphenate
    rw [if_neg (by simp [ha3.2])]
    simp
  have hsq : ∀ c ∈ squeezeHyphens ((s.data.map lowerChar).map hyphenate),
      (c == '-') = true := fun c hc => hmid c (squeeze_mem_sub c _ hc)
  have h1 : (squeezeHyphens ((s.data.map lowerChar).map hyphenate)).dropWhile
      (fun c => c == '-') = [] := List.dropWhile_eq_nil_iff.mpr hsq
  unfold slugify stripHyphens
  rw [h1]
  rfl

/-! ### Helper lemmas about decimal rendering and unique-id allocation -/

theorem natDigitChars_ne_nil (fuel n : Nat) (h : 0 < fuel) :
    natDigitChars fuel n ≠ [] := by
  cases fuel with
  | zero => omega
  | succ f =>
    rw [natDigitChars]
    by_cases hn : n < 10
    · rw [if_pos hn]; simp
    · rw [if_neg hn]; simp

theorem natDigitChars_fuel_irrel : ∀ (n f1 f2 : Nat), n < f1 → n < f2 →
    natDigitChars f1 n = natDigitChars f2 n := by
  intro n
  induction n using Nat.strong_induction_on with
  | _ n ih =>
    intro f1 f2 h1 h2
    cases f1 with
    | zero => omega
    | succ g1 =>
      cases f2 with
      | zero => omega
      | succ g2 =>
        rw [natDigitChars, natDigitChars]
        by_cases hn : n < 10
        · rw [if_pos hn, if_pos hn]
        · rw [if_neg hn, if_neg hn]
          have hd : n / 10 < n := Nat.div_lt_self (by omega) (by omega)
          rw [ih (n / 10) hd g1 g2 (by omega) (by omega)]

theorem digitChar_inj {m n : Nat} (hm : m < 10) (hn : n < 10)
    (h : Char.ofNat (m + 48) = Char.ofNat (n + 48)) : m = n := by
  have h1 : (Char.ofNat (m + 48)).toNat = (Char.ofNat (n + 48)).toNat := by rw [h]
  rw [char_toNat_ofNat (by omega), char_toNat_ofNat (by omega)] at h1
  omega

theorem natDigitChars_digits : ∀ (fuel n : Nat),
    ∀ c ∈ natDigitChars fuel n, isSlugChar c = true := by
  intro fuel
  induction fuel with
  | zero => intro n c hc; simp [natDigitChars] at hc
  | succ f ih =>
    intro n c hc
    rw [natDigitChars] at hc
    by_cases hn : n < 10
    · rw [if_pos hn] at hc
      have hcd : c = Char.ofNat (n + 48) := by simpa using hc
      subst hcd
      unfold isSlugChar
      rw [char_toNat_ofNat (by omega)]
      simp only [Bool.or_eq_true, Bool.and_eq_true, decide_eq_true_eq]
      omega
    · rw [if_neg hn] at hc
      rcases List.mem_append.mp hc with h1 | h2
      · exact ih _ c h1
      · have hcd : c = Char.ofNat (n % 10 + 48) := by simpa using h2
        subst hcd
        have hm : n % 10 < 10 := Nat.mod_lt _ (by omega)
        unfold isSlugChar
        rw [char_toNat_ofNat (by omega)]
        simp only [Bool.or_eq_true, Bool.and_eq_true, decide_eq_true_eq]
        omega

theorem natDigitChars_canon_inj : ∀ m n : Nat,
    natDigitChars (m + 1) m = natDigitChars (n + 1) n → m = n := by
  intro m
  induction m using Nat.strong_induction_on with
  | _ m ih =>
    intro n h
    rw [natDigitChars, natDigitChars] at h
    by_cases hm : m < 10
    · rw [if_pos hm] at h
      by_cases hn : n < 10
      · rw [if_pos hn] at h
        have hchar : Char.ofNat (m + 48) = Char.ofNat (n + 48) := by simpa using h
        exact digitChar_inj hm hn hchar
      · rw [if_neg hn] at h
        exfalso
        have hne := natDigitChars_ne_nil n (n / 10) (by omega)
        cases hq : natDigitChars n (n / 10) with
        | nil => exact hne hq
        | cons a l =>
          have hlen := congrArg List.length h
          rw [hq] at hlen
          simp only [List.length_cons, List.length_append, List.length_nil] at hlen
          omega
    · rw [if_neg hm] at h
      by_cases hn : n < 10
      · rw [if_pos hn] at h
        exfalso
        have hne := natDigitChars_ne_nil m (m / 10) (by omega)
        cases hq : natDigitChars m (m / 10) with
        | nil => exact hne hq
        | cons a l =>
          have hlen := congrArg List.length h
          rw [hq] at hlen
          simp only [List.length_cons, List.length_append, List.length_nil] at hlen
          omega
      · rw [if_neg hn] at h
        have hpair := List.append_inj' h (by simp)
        have hdig : Char.ofNat (m % 10 + 48) = Char.ofNat (n % 10 + 48) := by
          simpa using hpair.2
        have hmod : m % 10 = n % 10 :=
          digitChar_inj (Nat.mod_lt _ (by omega)) (Nat.mod_lt _ (by omega)) hdig
        have hdm : m / 10 < m := Nat.div_lt_self (by omega) (by omega)
        have hdn : n / 10 < n := Nat.div_lt_self (by omega) (by omega)
        have e1 : natDigitChars m (m / 10) = natDigitChars (m / 10 + 1) (m / 10) :=
          natDigitChars_fuel_irrel (m / 10) m (m / 10 + 1) hdm (by omega)
        have e2 : natDigitChars n (n / 10) = natDigitChars (n / 10 + 1) (n / 10) :=
          natDigitChars_fuel_irrel (n / 10) n (n / 10 + 1) hdn (by omega)
        have hdiv : m / 10 = n / 10 := ih (m / 10) hdm (n / 10)
          (e1.symm.trans (hpair.1.trans e2))
        omega

theorem natRepr_inj {m n : Nat} (h : natRepr m = natRepr n) : m = n := by
  unfold natRepr at h
  have hd : natDigitChars (m + 1) m = natDigitChars (n + 1) n := by
    simpa [String.ext_iff] using h
  exact natDigitChars_canon_inj m n hd

theorem candId_data (base : String) (k : Nat) :
    (candId base k).data = base.data ++ '-' :: natDigitChars (k + 1) k := by
  unfold candId natRepr
  rw [String.data_append, String.data_append, List.append_assoc]
  rfl

theorem candId_inj (base : String) {j k : Nat}
    (h : candId base j = candId base k) : j = k := by
  have hd := congrArg String.data h
  rw [candId_data, candId_data] at hd
  have h2 := List.append_cancel_left hd
  have h3 : natDigitChars (j + 1) j = natDigitChars (k + 1) k := by
    simpa using h2
  exact natDigitChars_canon_inj j k h3

theorem candId_chars (base : String) (k : Nat)
    (hb : ∀ c ∈ base.data, isSlugChar c = true ∨ c = '-') :
    ∀ c ∈ (candId base k).data, isSlugChar c = true ∨ c = '-' := by
  intro c hc
  rw [candId_data] at hc
  rcases List.mem_append.mp hc with h1 | h2
  · exact hb c h1
  · rcases List.mem_cons.mp h2 with h3 | h4
    · exact Or.inr h3
    · exact Or.inl (natDigitChars_digits _ _ c h4)

theorem candId_ne_empty (base : String) (k : Nat) : candId base k ≠ "" := by
  intro h
  have hd := congrArg String.data h
  rw [candId_data] at hd
  simp at hd

theorem exists_unused_cand (ids : List String) (base : String) :
    ∃ k, 2 ≤ k ∧ k ≤ ids.length + 2 ∧ candId base k ∉ ids := by
  by_contra hcon
  push_neg at hcon
  have hsub : ((List.range' 2 (ids.length + 1)).map (candId base)) ⊆ ids := by
    intro x hx
    rcases List.mem_map.mp hx with ⟨k, hk, rfl⟩
    rw [List.mem_range'_1] at hk
    exact hcon k hk.1 (by omega)
  have hnodup : ((List.range' 2 (ids.length + 1)).map (candId base)).Nodup := by
    apply List.Nodup.map
    · intro a b hab
      exact candId_inj base hab
    · exact List.nodup_range' _ _
  have hcard : ((List.range' 2 (ids.length + 1)).map (candId base)).toFinset.card
      = ids.length + 1 := by
    rw [List.toFinset_card_of_nodup hnodup]
    simp
  have hsub2 : ((List.range' 2 (ids.length + 1)).map (candId base)).toFinset
      ⊆ ids.toFinset := by
    intro x hx
    rw [List.mem_toFinset] at hx ⊢
    exact hsub hx
  have hle := Finset.card_le_card hsub2
  have hle2 : ids.toFinset.card ≤ ids.length := List.toFinset_card_le ids
  rw [hcard] at hle
  omega

theorem resolveAux_spec (ids : List String) (base : String) :
    ∀ (fuel k : Nat), (∃ j, k ≤ j ∧ j ≤ k + fuel ∧ candId base j ∉ ids) →
      ∃ j0, k ≤ j0 ∧ resolveAux ids base fuel k = candId base j0 ∧
        candId base j0 ∉ ids ∧ ∀ j, k ≤ j → j < j0 → candId base j ∈ ids := by
  intro fuel
  induction fuel with
  | zero =>
    intro k h
    rcases h with ⟨j, hj1, hj2, hj3⟩
    have hjk : j = k := by omega
    subst hjk
    refine ⟨j, Nat.le_refl _, rfl, hj3, ?_⟩
    intro i h1 h2
    exact absurd (Nat.lt_of_le_of_lt h1 h2) (Nat.lt_irrefl _)
  | succ f ihf =>
    intro k h
    rw [resolveAux]
    by_cases hc : candId base k ∈ ids
    · rw [if_pos hc]
      have hex : ∃ j, k + 1 ≤ j ∧ j ≤ k + 1 + f ∧ candId base j ∉ ids := by
        rcases h with ⟨j, hj1, hj2, hj3⟩
        refine ⟨j, ?_, by omega, hj3⟩
        rcases hj1.eq_or_lt with heq | hlt
        · exact absurd (heq ▸ hc) hj3
        · omega
      rcases ihf (k + 1) hex with ⟨j0, hj0a, hj0b, hj0c, hj0d⟩
      refine ⟨j0, by omega, hj0b, hj0c, ?_⟩
      intro j h1 h2
      rcases h1.eq_or_lt with heq | hlt
      · exact heq ▸ hc
      · exact hj0d j (by omega) h2
    · rw [if_neg hc]
      refine ⟨k, Nat.le_refl _, rfl, hc, ?_⟩
      intro j h1 h2
      exact absurd (Nat.lt_of_le_of_lt h1 h2) (Nat.lt_irrefl _)

theorem resolveUniqueId_of_not_mem (store : Store) (base : String)
    (h : base ∉ store.map Task.id) : resolveUniqueId store base = base := by
  unfold resolveUniqueId
  rw [if_neg h]

theorem resolveUniqueId_of_mem (store : Store) (base : String)
    (h : base ∈ store.map Task.id) :
    ∃ k, 2 ≤ k ∧ resolveUniqueId store base = candId base k ∧
      candId base k ∉ store.map Task.id ∧
      ∀ j, 2 ≤ j → j < k → candId base j ∈ store.map Task.id := by
  unfold resolveUniqueId
  rw [if_pos h]
  rcases exists_unused_cand (store.map Task.id) base with ⟨k, hk1, hk2, hk3⟩
  rcases resolveAux_spec (store.map Task.id) base ((store.map Task.id).length + 1) 2
      ⟨k, hk1, by omega, hk3⟩ with ⟨j0, hj0a, hj0b, hj0c, hj0d⟩
  exact ⟨j0, hj0a, hj0b, hj0c, hj0d⟩

theorem resolveUniqueId_unused (store : Store) (base : String) :
    resolveUniqueId store base ∉ store.map Task.id := by
  by_cases h : base ∈ store.map Task.id
  · rcases resolveUniqueId_of_mem store base h with ⟨k, _, heq, hk3, _⟩
    rw [heq]; exact hk3
  · rw [resolveUniqueId_of_not_mem store base h]; exact h

theorem resolveUniqueId_chars (store : Store) (base : String)
    (hb : ∀ c ∈ base.data, isSlugChar c = true ∨ c = '-') :
    ∀ c ∈ (resolveUniqueId store base).data, isSlugChar c = true ∨ c = '-' := by
  by_cases h : base ∈ store.map Task.id
  · rcases resolveUniqueId_of_mem store base h with ⟨k, _, heq, _, _⟩
    rw [heq]; exact candId_chars base k hb
  · rw [resolveUniqueId_of_not_mem store base h]; exact hb

theorem resolveUniqueId_ne_empty (store : Store) (base : String) (hb : base ≠ "") :
    resolveUniqueId store base ≠ "" := by
  by_cases h : base ∈ store.map Task.id
  · rcases resolveUniqueId_of_mem store base h with ⟨k, _, heq, _, _⟩
    rw [heq]; exact candId_ne_empty base k
  · rw [resolveUniqueId_of_not_mem store base h]; exact hb

/-! ### Claim theorems -/

/-- C1, counterexample: the claim that every id accepted at creation —
including an explicitly supplied custom id — is filesystem-safe (lowercase
alphanumerics and hyphens) is false: `add --id "BAD_ID!"` on an empty store
succeeds and stores a task whose id contains uppercase letters, an
underscore and an exclamation mark. -/
theorem C1_custom_id_shape_unchecked :
    (addCmd [] "a task" none none (some "BAD_ID!") 0).1 = Except.ok "BAD_ID!" ∧
    (addCmd [] "a task" none none (some "BAD_ID!") 0).2 =
      [{ id := "BAD_ID!", title := "a task", state := "active", parent := none,
         notes := none, created := 0, updated := 0 }] ∧
    ("BAD_ID!".data.all (fun c => isSlugChar c || c == '-')) = false := by
  refine ⟨rfl, rfl, by decide⟩

/-- C1, amended: ids allocated automatically by the slug path of `add`
(`slugify` plus `resolve_unique_id`) are non-empty, consist only of
lowercase alphanumerics and hyphens, and are unused in the store at
creation time; an explicitly supplied custom id is checked only for
uniqueness, not for shape. -/
theorem C1_auto_ids_safe (store : Store) (title : String)
    (parent : Option String) (stateOpt : Option String) (now : Nat) (tid : String)
    (h : (addCmd store title parent stateOpt none now).1 = Except.ok tid) :
    tid ≠ "" ∧ (∀ c ∈ tid.data, isSlugChar c = true ∨ c = '-') ∧
      tid ∉ store.map Task.id := by
  have h2 : (addSlug store title parent (stateOpt.getD "active") now).1
      = Except.ok tid := h
  simp only [addSlug] at h2
  by_cases hb : slugify title = ""
  · rw [if_pos hb] at h2
    simp at h2
  · rw [if_neg hb] at h2
    have htid : resolveUniqueId store (slugify title) = tid := by simpa using h2
    subst htid
    exact ⟨resolveUniqueId_ne_empty _ _ hb,
      resolveUniqueId_chars _ _ (slugify_chars title),
      resolveUniqueId_unused _ _⟩

/-- C1, amended witness: `add "Hello World"` allocates `hello-world`, which
is non-empty, filesystem-safe, and unused in the empty store. -/
theorem C1_auto_ids_safe_witness :
    ("hello-world" : String) ≠ "" ∧
    (∀ c ∈ ("hello-world" : String).data, isSlugChar c = true ∨ c = '-') ∧
    ("hello-world" : String) ∉ ([] : Store).map Task.id :=
  C1_auto_ids_safe [] "Hello World" none none 0 "hello-world" rfl

/-- C2: creating a task via `add` with an explicit custom id that is
already present in the store fails with `AlreadyExists` and returns the
store unchanged, so no record is written and the existing record is left
byte-for-byte unmodified.  (The hypothesis `tid ≠ ""` reflects that every
stored id is non-empty; Python's `if custom_id:` routes an empty custom id
to the slug path.) -/
theorem C2_add_existing_custom_id (store : Store) (title : String)
    (parent : Option String) (stateOpt : Option String) (now : Nat) (tid : String)
    (hne : tid ≠ "") (h : ∃ t ∈ store, t.id = tid) :
    addCmd store title parent stateOpt (some tid) now =
      (Except.error (TdErr.alreadyExists tid), store) := by
  have hany : store.any (fun t => t.id == tid) = true := by
    rcases h with ⟨t, ht, hid⟩
    exact List.any_eq_true.mpr ⟨t, ht, by simpa using hid⟩
  simp only [addCmd]
  rw [if_neg hne, if_pos hany]

/-- C2, witness: adding `--id x` when task `x` exists fails with
`AlreadyExists` and leaves the store unchanged. -/
theorem C2_add_existing_custom_id_witness :
    addCmd [{ id := "x", title := "X", state := "active", parent := none,
              notes := none, created := 0, updated := 0 }] "Y" none none
        (some "x") 5 =
      (Except.error (TdErr.alreadyExists "x"),
       [{ id := "x", title := "X", state := "active", parent := none,
          notes := none, created := 0, updated := 0 }]) :=
  C2_add_existing_custom_id _ "Y" none none 5 "x" (by decide)
    ⟨_, List.mem_cons_self _ _, rfl⟩

/-- C3: `ls` sorts its output by `state_order`, under which focus (0)
comes before active (1), active before later (2), and later before done
(3); this holds for every flag combination, in particular for the default
listing. -/
theorem C3_ls_sorted_by_state (store : Store) (filterState : Option String)
    (showAll : Bool) :
    List.Sorted taskLE (lsTasks store filterState showAll) ∧
    stateOrder "focus" < stateOrder "active" ∧
    stateOrder "active" < stateOrder "later" ∧
    stateOrder "later" < stateOrder "done" := by
  refine ⟨?_, by decide, by decide, by decide⟩
  simp only [lsTasks]
  exact List.sorted_insertionSort taskLE _

/-- C4: the default listing (no state filter, no `--all`) returns exactly
the tasks whose state is not `done`; concretely, with A active, B done,
C focus it returns exactly C and A. -/
theorem C4_ls_default_excludes_done :
    (∀ (store : Store) (t : Task),
        t ∈ lsTasks store none false ↔ t ∈ store ∧ t.state ≠ "done") ∧
    lsTasks
        [{ id := "a", title := "A", state := "active", parent := none,
           notes := none, created := 0, updated := 0 },
         { id := "b", title := "B", state := "done", parent := none,
           notes := none, created := 0, updated := 0 },
         { id := "c", title := "C", state := "focus", parent := none,
           notes := none, created := 0, updated := 0 }] none false =
      [{ id := "c", title := "C", state := "focus", parent := none,
         notes := none, created := 0, updated := 0 },
       { id := "a", title := "A", state := "active", parent := none,
         notes := none, created := 0, updated := 0 }] := by
  constructor
  · intro store t
    simp only [lsTasks, loadAllTasks]
    rw [List.mem_insertionSort]
    simp [List.mem_filter]
  · rfl

/-- C5: every state-transition command (`focus`, `active`, `later`,
`done`) goes through `_set_state`, which sets the state to the target
value, refreshes `updated` to the injected current time, persists the
task, and leaves `id`, `title`, `parent`, `notes` and `created`
unchanged. -/
theorem C5_set_state_frame (store : Store) (tid ns : String) (now : Nat)
    (t : Task) (h : loadTask store tid = Except.ok t) :
    setState store tid ns now =
        (Except.ok (), saveTask store { t with state := ns, updated := now }) ∧
    loadTask (setState store tid ns now).2 tid =
      Except.ok { t with state := ns, updated := now } ∧
    ({ t with state := ns, updated := now }).id = t.id ∧
    ({ t with state := ns, updated := now }).title = t.title ∧
    ({ t with state := ns, updated := now }).parent = t.parent ∧
    ({ t with state := ns, updated := now }).notes = t.notes ∧
    ({ t with state := ns, updated := now }).created = t.created ∧
    ({ t with state := ns, updated := now }).state = ns ∧
    ({ t with state := ns, updated := now }).updated = now ∧
    (∀ (s2 : Store) (i2 : String) (n2 : Nat),
        focusCmd s2 i2 n2 = setState s2 i2 "focus" n2 ∧
        activeCmd s2 i2 n2 = setState s2 i2 "active" n2 ∧
        laterCmd s2 i2 n2 = setState s2 i2 "later" n2 ∧
        doneCmd s2 i2 n2 = setState s2 i2 "done" n2) := by
  have hset : setState store tid ns now =
      (Except.ok (), saveTask store { t with state := ns, updated := now }) := by
    unfold setState
    rw [h]
  refine ⟨hset, ?_, rfl, rfl, rfl, rfl, rfl, rfl, rfl,
    fun _ _ _ => ⟨rfl, rfl, rfl, rfl⟩⟩
  rw [hset]
  have hmem := loadTask_ok_mem store tid t h
  rw [← hmem.2]
  exact loadTask_saveTask_self store _

/-- C5, witness: `done x` at time 9 on a store holding active task `x`
persists the task with state `done`, `updated = 9`, and all other fields
unchanged. -/
theorem C5_set_state_frame_witness :
    loadTask
        (setState [{ id := "x", title := "X", state := "active", parent := none,
                     notes := some "n", created := 1, updated := 2 }]
          "x" "done" 9).2 "x" =
      Except.ok { id := "x", title := "X", state := "done", parent := none,
                  notes := some "n", created := 1, updated := 9 } :=
  (C5_set_state_frame
      [{ id := "x", title := "X", state := "active", parent := none,
         notes := some "n", created := 1, updated := 2 }]
      "x" "done" 9
      { id := "x", title := "X", state := "active", parent := none,
        notes := some "n", created := 1, updated := 2 } rfl).2.1

/-- C6: `rm` loads the task before anything else, so a non-existent id
fails with `NotFound` (whatever the `--force` flag and the confirmation
answer would have been), and when the task exists but the confirmation is
declined the command aborts with the store untouched. -/
theorem C6_rm_existence_check (store : Store) (tid : String) :
    ((∀ t ∈ store, t.id ≠ tid) → ∀ force confirmed : Bool,
        rmCmd store tid force confirmed =
          (Except.error (TdErr.notFound tid), store)) ∧
    (∀ t : Task, loadTask store tid = Except.ok t →
        rmCmd store tid false false = (Except.error TdErr.aborted, store)) := by
  constructor
  · intro h force confirmed
    unfold rmCmd
    rw [loadTask_eq_error store tid h]
  · intro t h
    unfold rmCmd
    rw [h]
    rfl

/-- C6, witness: removing a non-existent id fails with `NotFound`, and a
declined confirmation on an existing task aborts without touching the
store. -/
theorem C6_rm_existence_check_witness :
    rmCmd [] "x" false true = (Except.error (TdErr.notFound "x"), []) ∧
    rmCmd [{ id := "x", title := "X", state := "active", parent := none,
             notes := none, created := 0, updated := 0 }] "x" false false =
      (Except.error TdErr.aborted,
       [{ id := "x", title := "X", state := "active", parent := none,
          notes := none, created := 0, updated := 0 }]) :=
  ⟨(C6_rm_existence_check [] "x").1 (by simp) false true,
   (C6_rm_existence_check
       [{ id := "x", title := "X", state := "active", parent := none,
          notes := none, created := 0, updated := 0 }] "x").2 _ rfl⟩

/-- C7, counterexample: the claim that identifier resolution supports
prefix matching and rejects ambiguous prefixes is false.  With only task
`foobar` stored, the typed identifier `foo` — a unique strict prefix of a
stored id — is not resolved but fails with `NotFound`; and with tasks
`foo` and `foobar` stored, the typed identifier `foo` is a prefix of both
candidates, yet the command succeeds (resolving by exact match) instead of
failing with an ambiguity error. -/
theorem C7_no_prefix_matching :
    ((setState [{ id := "foobar", title := "FB", state := "active",
                  parent := none, notes := none, created := 0, updated := 0 }]
        "foo" "focus" 0).1 = Except.error (TdErr.notFound "foo") ∧
      "foobar".data.take 3 = "foo".data) ∧
    ((setState [{ id := "foo", title := "F", state := "active", parent := none,
                  notes := none, created := 0, updated := 0 },
                { id := "foobar", title := "FB", state := "active", parent := none,
                  notes := none, created := 0, updated := 0 }]
        "foo" "focus" 0).1 = Except.ok () ∧
      "foo".data.take 3 = "foo".data) := by
  refine ⟨⟨rfl, by decide⟩, ⟨rfl, by decide⟩⟩

/-- C7, amended: commands pass the typed identifier unchanged to
`load_task`, which resolves by exact id equality only: a successful load
returns the stored task whose id equals the typed string, and an
identifier equal to no stored id fails with `NotFound` (so `_set_state`
propagates `NotFound` and leaves the store untouched).  No prefix or fuzzy
matching and no ambiguity detection happen anywhere. -/
theorem C7_exact_match_resolution (store : Store) (tid : String) :
    (∀ t : Task, loadTask store tid = Except.ok t → t ∈ store ∧ t.id = tid) ∧
    ((∀ t ∈ store, t.id ≠ tid) →
      loadTask store tid = Except.error (TdErr.notFound tid) ∧
      ∀ (ns : String) (now : Nat),
        setState store tid ns now =
          (Except.error (TdErr.notFound tid), store)) := by
  constructor
  · exact fun t h => loadTask_ok_mem store tid t h
  · intro h
    have he := loadTask_eq_error store tid h
    refine ⟨he, fun ns now => ?_⟩
    unfold setState
    rw [he]

/-- C7, amended witness: with only task `foobar` stored, loading `foo`
fails with `NotFound`. -/
theorem C7_exact_match_resolution_witness :
    loadTask [{ id := "foobar", title := "FB", state := "active",
                parent := none, notes := none, created := 0, updated := 0 }]
        "foo" =
      Except.error (TdErr.notFound "foo") :=
  ((C7_exact_match_resolution
      [{ id := "foobar", title := "FB", state := "active", parent := none,
         notes := none, created := 0, updated := 0 }] "foo").2 (by decide)).1

/-- C8: for every title containing an (ASCII) alphanumeric character the
slug is non-empty, made only of lowercase alphanumerics and hyphens (hence
all-lowercase), has no leading or trailing hyphen and no two consecutive
hyphens; for every title with no alphanumeric content at all — including
the instances `""` and `"!!!"` — the slug is `""`, and `add` on such a
title fails with the invalid-title error and leaves the store unchanged
instead of creating a task. -/
theorem C8_slugify_spec :
    (∀ s : String, (∃ c ∈ s.data, isAsciiAlnum c = true) →
      slugify s ≠ "" ∧
      (∀ c ∈ (slugify s).data, isSlugChar c = true ∨ c = '-') ∧
      (slugify s).data.head? ≠ some '-' ∧
      (slugify s).data.getLast? ≠ some '-' ∧
      List.Chain' noHH (slugify s).data) ∧
    (∀ s : String, (∀ c ∈ s.data, isAsciiAlnum c = false) →
      slugify s = "" ∧
      ∀ (store : Store) (parent : Option String) (stateOpt : Option String)
          (now : Nat),
        addCmd store s parent stateOpt none now =
          (Except.error TdErr.invalidTitle, store)) ∧
    slugify "" = "" ∧ slugify "!!!" = "" := by
  refine ⟨?_, ?_, rfl, rfl⟩
  · intro s hx
    refine ⟨?_,
      slugify_chars s,
      by simpa [slugify] using
        strip_head_ne (squeezeHyphens ((s.data.map lowerChar).map hyphenate)),
      by simpa [slugify] using
        strip_getLast_ne (squeezeHyphens ((s.data.map lowerChar).map hyphenate)),
      by simpa [slugify] using
        strip_chain _ (squeeze_chain ((s.data.map lowerChar).map hyphenate))⟩
    intro h0
    apply slugify_data_ne_nil s hx
    rw [h0]
  · intro s h
    have he := slugify_eq_empty_of_no_alnum s h
    refine ⟨he, fun store parent stateOpt now => ?_⟩
    simp only [addCmd, addSlug]
    rw [if_pos he]

/-- C8, witness: `"Hello, World!"` contains alphanumerics and its slug
`hello-world` satisfies every shape condition; `"???"` has no alphanumeric
content, slugifies to `""`, and `add` on it fails without creating a
task. -/
theorem C8_slugify_spec_witness :
    (slugify "Hello, World!" ≠ "" ∧
      (∀ c ∈ (slugify "Hello, World!").data, isSlugChar c = true ∨ c = '-') ∧
      (slugify "Hello, World!").data.head? ≠ some '-' ∧
      (slugify "Hello, World!").data.getLast? ≠ some '-' ∧
      List.Chain' noHH (slugify "Hello, World!").data) ∧
    slugify "???" = "" ∧
    addCmd [] "???" none none none 0 = (Except.error TdErr.invalidTitle, []) :=
  ⟨C8_slugify_spec.1 "Hello, World!" ⟨'H', by decide, by decide⟩,
   (C8_slugify_spec.2.1 "???" (by decide)).1,
   (C8_slugify_spec.2.1 "???" (by decide)).2 [] none none 0⟩

/-- C9: `resolve_unique_id` returns `base` when no record has that id, and
otherwise the first unused id in the sequence `base-2`, `base-3`, …;
consequently allocating `foo` twice with the first result persisted in
between yields the distinct ids `foo` and `foo-2`. -/
theorem C9_resolve_unique_id (store : Store) (base : String) :
    (base ∉ store.map Task.id → resolveUniqueId store base = base) ∧
    (base ∈ store.map Task.id →
      ∃ k, 2 ≤ k ∧ resolveUniqueId store base = candId base k ∧
        candId base k ∉ store.map Task.id ∧
        ∀ j, 2 ≤ j → j < k → candId base j ∈ store.map Task.id) ∧
    (resolveUniqueId ([] : Store) "foo" = "foo" ∧
      resolveUniqueId
          (saveTask []
            { id := resolveUniqueId ([] : Store) "foo", title := "foo",
              state := "active", parent := none, notes := none,
              created := 0, updated := 0 }) "foo" = "foo-2" ∧
      ("foo" : String) ≠ "foo-2") := by
  exact ⟨resolveUniqueId_of_not_mem store base,
    resolveUniqueId_of_mem store base, rfl, rfl, by decide⟩

/-- C9, witness: on an empty store the base slug itself is returned. -/
theorem C9_resolve_unique_id_witness :
    resolveUniqueId ([] : Store) "bar" = "bar" :=
  (C9_resolve_unique_id [] "bar").1 (by decide)

/-- C10: `tree` filters out done tasks before building its id map, so
invoking it with the id of a stored done task fails with "not found" even
though the task exists, and no done task is ever part of the tree's
visible task set. -/
theorem C10_tree_hides_done (store : Store) (t : Task)
    (hmem : t ∈ store) (hdone : t.state = "done")
    (huniq : ∀ u ∈ store, u.id = t.id → u = t) :
    treeLookup store t.id = Except.error (TdErr.notFound t.id) ∧
    ∀ u ∈ treeVisible store, u.state ≠ "done" := by
  constructor
  · unfold treeLookup
    have hnone : (treeVisible store).find? (fun u => u.id == t.id) = none := by
      rw [List.find?_eq_none]
      intro u hu hpu
      unfold treeVisible loadAllTasks at hu
      have hu2 := List.mem_filter.mp hu
      have hid : u.id = t.id := by simpa using hpu
      have hut : u = t := huniq u hu2.1 hid
      rw [hut, hdone] at hu2
      simpa using hu2.2
    rw [hnone]
  · intro u hu
    unfold treeVisible loadAllTasks at hu
    have hu2 := List.mem_filter.mp hu
    simpa using hu2.2

/-- C10, witness: a store holding only the done task `d`: `tree d` fails
with "not found" and the visible set contains no done task. -/
theorem C10_tree_hides_done_witness :
    treeLookup [{ id := "d", title := "D", state := "done", parent := none,
                  notes := none, created := 0, updated := 0 }] "d" =
      Except.error (TdErr.notFound "d") :=
  (C10_tree_hides_done
      [{ id := "d", title := "D", state := "done", parent := none,
         notes := none, created := 0, updated := 0 }]
      { id := "d", title := "D", state := "done", parent := none,
        notes := none, created := 0, updated := 0 }
      (List.mem_cons_self _ _) rfl (by decide)).1

end Td
